import Mathlib

/-!
A shallow embedding of the temporal-segmentation and multimodal-fusion pipeline
of the news_video_search repository, together with proofs of the behavioural
claims made by its specification.

Times are modelled as rationals (the source computes on Python floats whose
values here are always small decimal fractions), external collaborators
(transcription, captioning, OCR, NER, the LLM, the vector store) are modelled
as explicit function parameters, and the retrieval store is an explicit list
of keyed entries threaded through the functions that the source performs via
a module-level client.
-/

namespace NewsVideo

/-! ### Rounding (Python `round(x, 2)`) -/

/-- Python `round` rounds to the nearest integer, ties to even (banker
rounding).  `roundHalfEven x` is that nearest integer. -/
def roundHalfEven (x : ℚ) : ℤ :=
  let n := ⌊x⌋
  let f := x - n
  if f < 1/2 then n
  else if 1/2 < f then n + 1
  else if n % 2 = 0 then n else n + 1

/-- Python `round(x, 2)`: round to the nearest multiple of 1/100, ties to even. -/
def round2 (x : ℚ) : ℚ := (roundHalfEven (100 * x) : ℚ) / 100

/-! ### Windowing Engine (src/app/core/video_processor.py) -/

/-- One time window of a video: `(start, end)` in seconds, as stored in the
dictionaries appended by `create_sliding_windows`. -/
abbrev Window : Type := ℚ × ℚ

/-- The while loop of `create_sliding_windows` (video_processor.py lines
112-137), with an explicit iteration bound `fuel`.  Every iteration advances
`current_start` by `step_size`, so for `step_size ≥ 1` a fuel of
`⌈video_duration⌉ + 1` is never exhausted and the recursion computes exactly
the source while loop (for `step_size ≤ 0` the source loop can diverge and
the claims below do not concern it). -/
def slidingAux (video_duration : ℚ) (window_size step_size : ℤ) :
    ℕ → ℚ → List Window
  | 0, _ => []
  | fuel + 1, current_start =>
    if current_start < video_duration then
      let current_end0 : ℚ := current_start + window_size
      let current_end : ℚ :=
        if video_duration < current_end0 then video_duration else current_end0
      if current_end - current_start < 1 then []
      else
        (round2 current_start, round2 current_end) ::
          (if current_end = video_duration then []
           else slidingAux video_duration window_size step_size fuel
                  (current_start + step_size))
    else []

/-- `create_sliding_windows` (video_processor.py lines 92-137): overlapping
time intervals covering a video of the given duration. -/
def create_sliding_windows (video_duration : ℚ) (window_size step_size : ℤ) :
    List Window :=
  slidingAux video_duration window_size step_size (⌈video_duration⌉.toNat + 1) 0

/-- Metadata of one discovered video (video_processor.py lines 79-84). -/
structure VideoMeta where
  video_id : String
  filename : String
  duration_seconds : ℚ
deriving DecidableEq

/-- The scan loop of `ingest_videos` (video_processor.py lines 68-87).  The
source draws `video_id = str(uuid.uuid4())[:8]` afresh for each successfully
probed file; the draws are modelled by the supply `uuid`, indexed by how many
videos have been ingested before the current one (`uuid.uuid4()` is called
once per ingested video, in order).  A file whose duration cannot be read
(`None`) is skipped without drawing an identifier. -/
def ingestGo (uuid : ℕ → String) : List (String × Option ℚ) → ℕ → List VideoMeta
  | [], _ => []
  | (filename, duration) :: rest, k =>
    match duration with
    | none => ingestGo uuid rest k
    | some d => ⟨uuid k, filename, round2 d⟩ :: ingestGo uuid rest (k + 1)

/-- `ingest_videos` (video_processor.py lines 52-89) over a directory listing
of `(filename, probed duration)` pairs. -/
def ingest_videos (uuid : ℕ → String) (files : List (String × Option ℚ)) :
    List VideoMeta :=
  ingestGo uuid files 0

/-! ### Transcript alignment (src/app/process_videos.py lines 96-102) -/

/-- A transcript segment as returned by the transcription collaborator. -/
structure Segment where
  start : ℚ
  «end» : ℚ
  text : String
deriving DecidableEq

/-- The segment-selection loop of `process_single_video` (process_videos.py
lines 96-100): collect, in transcript order, the text of every segment with
`seg.start < end_t and seg.end > start_t`. -/
def chunk_text_parts (segments : List Segment) (start_t end_t : ℚ) :
    List String :=
  segments.foldl
    (fun acc seg =>
      if seg.start < end_t ∧ start_t < seg.«end» then acc ++ [seg.text]
      else acc)
    []

/-- `audio_text` (process_videos.py line 102): `" ".join(parts).strip()`. -/
def audio_text (segments : List Segment) (start_t end_t : ℚ) : String :=
  (String.intercalate " " (chunk_text_parts segments start_t end_t)).trim

/-! ### Vision service (src/app/services/vision_service.py) -/

/-- The result of resizing a frame to 64x64 and converting it to grayscale
(vision_service.py lines 72-79): one luminance value per pixel.  The OpenCV
resize/cvtColor pipeline is an external deterministic function of the frame,
modelled by a parameter of type `Frame → Gray64`. -/
abbrev Gray64 : Type := Fin 64 → Fin 64 → ℚ

/-- Mean squared error between two 64x64 grayscale images
(vision_service.py lines 81-85). -/
def mse (g1 g2 : Gray64) : ℚ :=
  (∑ i : Fin 64, ∑ j : Fin 64, (g1 i j - g2 i j) ^ 2) / (64 * 64)

/-- `get_frame_difference` (vision_service.py lines 54-85): `float('inf')`
(modelled by `⊤`) when either frame is `None`, otherwise the MSE of the two
frames after reduction to small grayscale via `resizeGray`. -/
def get_frame_difference {Frame : Type} (resizeGray : Frame → Gray64) :
    Option Frame → Option Frame → WithTop ℚ
  | none, _ => ⊤
  | _, none => ⊤
  | some frame1, some frame2 => (mse (resizeGray frame1) (resizeGray frame2) : ℚ)

/-- The scene-change threshold of process_videos.py line 79. -/
def scene_change_threshold : WithTop ℚ := ((50 : ℚ) : WithTop ℚ)

/-- The carried visual state of one video run (process_videos.py lines 77-78). -/
structure SceneState (Frame : Type) where
  previous_frame : Option Frame
  previous_caption : String

/-- The initial scene state of process_videos.py lines 77-78. -/
def initialSceneState (Frame : Type) : SceneState Frame :=
  ⟨none, "No visual context available."⟩

/-- The visual-captioning part of the per-window loop body (process_videos.py
lines 111-129) for window index `i`.  Returns the visual caption for the
window, the updated scene state, and whether the caption collaborator
(`generate_visual_caption`) was invoked. -/
def visualStep {Frame : Type} (cap : Frame → String)
    (resizeGray : Frame → Gray64) (i : ℕ) (st : SceneState Frame)
    (current_frame : Option Frame) : String × SceneState Frame × Bool :=
  match current_frame with
  | none => ("", st, false)
  | some f =>
    let diff := get_frame_difference resizeGray st.previous_frame (some f)
    if i = 0 ∨ scene_change_threshold < diff then
      let visual_caption := cap f
      (visual_caption, ⟨some f, visual_caption⟩, true)
    else
      (st.previous_caption, ⟨some f, st.previous_caption⟩, false)

/-- Number of caption-collaborator invocations made by running `visualStep`
over a sequence of keyframes starting at window index `i`. -/
def captionCallsFrom {Frame : Type} (cap : Frame → String)
    (resizeGray : Frame → Gray64) : List (Option Frame) → ℕ →
    SceneState Frame → ℕ
  | [], _, _ => 0
  | f :: rest, i, st =>
    let r := visualStep cap resizeGray i st f
    (if r.2.2 then 1 else 0) + captionCallsFrom cap resizeGray rest (i + 1) r.2.1

/-! ### Resilient Indexer (src/app/services/embedding_service.py) -/

/-- A metadata value: ChromaDB metadata maps keys to strings or numbers. -/
inductive MVal where
  | s : String → MVal
  | q : ℚ → MVal
deriving DecidableEq

/-- A metadata mapping, as an association list in insertion order. -/
abbrev Metadata : Type := List (String × MVal)

/-- Python dict assignment `m[k] = v`: overwrite the value under `k` if the
key is present, append the pair otherwise. -/
def setKey (m : Metadata) (k : String) (v : MVal) : Metadata :=
  if m.any (fun p => p.1 = k) then
    m.map (fun p => if p.1 = k then (k, v) else p)
  else m ++ [(k, v)]

/-- One stored record of the retrieval store: identity, document text,
metadata. -/
structure Entry where
  id : String
  doc : String
  meta : Metadata
deriving DecidableEq

/-- The retrieval store contents, in storage order. -/
abbrev Store : Type := List Entry

/-- Modelled from the spec: the retrieval store itself is an external
collaborator (ChromaDB; spec section 6 `store.commit`), and a committed write
is keyed by the record identity — committing an identity already present
replaces that stored entry, otherwise the entry is appended ("Idempotent
commit: writing the same identity twice converges to one stored value"). -/
def store_commit (st : Store) (en : Entry) : Store :=
  if st.any (fun old => old.id = en.id) then
    st.map (fun old => if old.id = en.id then en else old)
  else st ++ [en]

/-- `chunk_id` (embedding_service.py line 68):
`f"{video_id}_{start_time}_{end_time}"`.  Numbers are printed with the
rational printer rather than the Python float printer; the claims depend only
on the identity being a function of `(video_id, start_time, end_time)`. -/
def chunk_id (video_id : String) (start_time end_time : ℚ) : String :=
  video_id ++ "_" ++ toString start_time ++ "_" ++ toString end_time

/-- The retry loop of `add_chunk_to_db` (embedding_service.py lines 71-86).
`outcome a` tells whether the store write raises on attempt number `a`
(`true` = the write succeeds); this models the external connection.  Returns
the resulting store, whether the record was stored, the number of attempts
made, and the total seconds slept in backoff (the source sleeps 2 seconds
after every failed attempt except the last). -/
def retryGo (outcome : ℕ → Bool) (st : Store) (en : Entry) (max_retries : ℕ) :
    ℕ → ℕ → Store × Bool × ℕ × ℕ
  | attempt, 0 => (st, false, attempt, 0)
  | attempt, remaining + 1 =>
    if outcome attempt then (store_commit st en, true, attempt + 1, 0)
    else
      let r := retryGo outcome st en max_retries (attempt + 1) remaining
      (r.1, r.2.1, r.2.2.1,
        (if attempt + 1 < max_retries then 2 else 0) + r.2.2.2)

/-- `add_chunk_to_db` (embedding_service.py lines 42-86): force the mandatory
metadata keys, build the deterministic chunk identity, and try the store
write up to `max_retries = 3` times; a failure after the bound is reported
(printed) and the function returns normally either way. -/
def add_chunk_to_db (outcome : ℕ → Bool) (st : Store) (video_id : String)
    (start_time end_time : ℚ) (text : String) (metadata : Metadata) :
    Store × Bool × ℕ × ℕ :=
  let metadata1 := setKey metadata "video_id" (MVal.s video_id)
  let metadata2 := setKey metadata1 "start_time" (MVal.q start_time)
  let metadata3 := setKey metadata2 "end_time" (MVal.q end_time)
  let cid := chunk_id video_id start_time end_time
  retryGo outcome st ⟨cid, text, metadata3⟩ 3 0 3

/-- Committing a batch of prepared entries in order, record `i` using the
write outcomes `outcome i` (the per-chunk `add_chunk_to_db` calls of the
window loop).  Returns the final store and, per record, whether it was
stored.  `add_chunk_to_db` returns normally even when a record fails, so the
loop reaches every record. -/
def commitAllGo (outcome : ℕ → ℕ → Bool) (st : Store) (i : ℕ) :
    List Entry → Store × List Bool
  | [] => (st, [])
  | en :: rest =>
    let r := retryGo (outcome i) st en 3 0 3
    let rec' := commitAllGo outcome r.1 (i + 1) rest
    (rec'.1, r.2.1 :: rec'.2)

/-! ### Fusion assembly (src/app/process_videos.py lines 88-168) -/

/-- `final_text` (process_videos.py lines 150-154): the fused text body as
three labeled sections in fixed order. -/
def final_text (visual_caption ocr_text audio : String) : String :=
  "[Visual Scene]: " ++ visual_caption ++
  " [On-Screen Text]: " ++ ocr_text ++
  " [Audio Transcript]: " ++ audio

/-- The per-window body of `process_single_video` (process_videos.py lines
88-168) up to the store call: align the transcript, take the midpoint
keyframe, run the scene-change gate and OCR, extract entities from the audio
text, and assemble the document text and metadata of the record to commit.
Collaborators are explicit parameters: `frameAt` is
`extract_frame_at_time(video_path, ·)`, `cap` is `generate_visual_caption`,
`resizeGray` the grayscale reduction inside `get_frame_difference`, `ocr` is
`extract_text_from_frame`, and `ner` is `extract_entities` returning the
`(PERSON, ORG, GPE)` lists. -/
def fuseChunk {Frame : Type} (frameAt : ℚ → Option Frame)
    (cap : Frame → String) (resizeGray : Frame → Gray64)
    (ocr : Frame → String) (ner : String → List String × List String × List String)
    (segments : List Segment) (filename : String) (i : ℕ)
    (st : SceneState Frame) (chunk : Window) :
    (String × Metadata) × SceneState Frame :=
  let start_t := chunk.1
  let end_t := chunk.2
  let audio := audio_text segments start_t end_t
  let midpoint := (start_t + end_t) / 2
  let current_frame := frameAt midpoint
  let v := visualStep cap resizeGray i st current_frame
  let visual_caption := v.1
  let ocr_text := match current_frame with
    | some f => ocr f
    | none => ""
  let entities := ner audio
  let people_str := String.intercalate ", " entities.1
  let orgs_str := String.intercalate ", " entities.2.1
  let locs_str := String.intercalate ", " entities.2.2
  ((final_text visual_caption ocr_text audio,
    [("filename", MVal.s filename), ("people", MVal.s people_str),
     ("organizations", MVal.s orgs_str), ("locations", MVal.s locs_str)]),
   v.2.1)

/-- One full window iteration of `process_single_video`: fuse the signals and
commit the record with `add_chunk_to_db`. -/
def processChunk {Frame : Type} (frameAt : ℚ → Option Frame)
    (cap : Frame → String) (resizeGray : Frame → Gray64)
    (ocr : Frame → String) (ner : String → List String × List String × List String)
    (segments : List Segment) (video_id filename : String) (i : ℕ)
    (st : SceneState Frame) (chunk : Window) (store : Store)
    (outcome : ℕ → Bool) : Store × SceneState Frame :=
  let f := fuseChunk frameAt cap resizeGray ocr ner segments filename i st chunk
  ((add_chunk_to_db outcome store video_id chunk.1 chunk.2 f.1.1 f.1.2).1, f.2)

/-! ### Retrieval and synthesis (src/app/rag_search.py lines 25-81) -/

/-- The context assembly of `generate_answer` (rag_search.py lines 43-45):
a bulleted block with one line per retrieved chunk. -/
def context_text (relevant_chunks : List String) : String :=
  relevant_chunks.foldl (fun acc chunk => acc ++ "- " ++ chunk ++ "\n") ""

/-- The fixed system prompt of rag_search.py lines 49-55 (the inner quoted
example sentence is abridged; no claim depends on the prompt wording). -/
def system_prompt : String :=
  "You are a helpful news assistant. You will be given a user question and " ++
  "several context snippets from video transcripts and visual descriptions.\n" ++
  "Your job is to answer the question based ONLY on the provided context.\n" ++
  "If the context does not contain the answer, say that you do not have it.\n" ++
  "Keep the answer concise (2-3 sentences)."

/-- The per-request user message of rag_search.py lines 58-63. -/
def user_message (user_query : String) (relevant_chunks : List String) :
    String :=
  "Context from videos:\n" ++ context_text relevant_chunks ++
  "\n\nQuestion: " ++ user_query

/-- `generate_answer` (rag_search.py lines 25-81).  The language collaborator
is the parameter `llm`, taking the built system prompt and user message and
returning either the `message.content` of its response (`some`/`none`, the
content being optional in the client API) or a raised error (which the source
catches).  The result is the answer string paired with whether the
collaborator was invoked. -/
def generate_answer (llm : String → String → Except Unit (Option String))
    (user_query : String) (relevant_chunks : List String) : String × Bool :=
  if relevant_chunks.isEmpty then
    ("I could not find enough information in the videos to answer that.", false)
  else
    match llm system_prompt (user_message user_query relevant_chunks) with
    | Except.error _ => ("An error occurred while generating the answer.", true)
    | Except.ok answer =>
      match answer with
      | some a => (if a.isEmpty then "Error generating response." else a, true)
      | none => ("Error generating response.", true)

/-! ## Lemmas about rounding -/

theorem roundHalfEven_intCast (n : ℤ) : roundHalfEven (n : ℚ) = n := by
  simp [roundHalfEven, Int.floor_intCast]

theorem roundHalfEven_le_int {x : ℚ} {m : ℤ} (h : x ≤ (m : ℚ)) :
    roundHalfEven x ≤ m := by
  have hfl : ⌊x⌋ ≤ m := by
    have := Int.floor_le_floor h
    simpa using this
  simp only [roundHalfEven]
  split
  · exact hfl
  · rename_i h1
    have hx : (⌊x⌋ : ℚ) < x := by
      push_neg at h1
      nlinarith [Int.floor_le x]
    have hm : ⌊x⌋ < m := by
      by_contra hc
      push_neg at hc
      have : (m : ℚ) ≤ (⌊x⌋ : ℚ) := by exact_mod_cast hc
      linarith
    split
    · omega
    · split <;> omega

theorem int_le_roundHalfEven {m : ℤ} {x : ℚ} (h : (m : ℚ) ≤ x) :
    m ≤ roundHalfEven x := by
  have hfl : m ≤ ⌊x⌋ := Int.le_floor.mpr h
  simp only [roundHalfEven]
  split
  · exact hfl
  · split
    · omega
    · split <;> omega

theorem roundHalfEven_add_even (x : ℚ) (n : ℤ) (hn : n % 2 = 0) :
    roundHalfEven (x + n) = roundHalfEven x + n := by
  have hfl : ⌊x + (n : ℚ)⌋ = ⌊x⌋ + n := Int.floor_add_int x n
  have hfr : x + (n : ℚ) - (⌊x⌋ + n : ℤ) = x - ⌊x⌋ := by
    push_cast
    ring
  simp only [roundHalfEven, hfl, hfr]
  have hpar : (⌊x⌋ + n) % 2 = ⌊x⌋ % 2 := by omega
  split
  · rfl
  · split
    · ring
    · rw [hpar]
      split <;> ring

theorem round2_intCast (n : ℤ) : round2 (n : ℚ) = n := by
  have : (100 : ℚ) * n = ((100 * n : ℤ) : ℚ) := by push_cast; ring
  rw [round2, this, roundHalfEven_intCast]
  push_cast
  ring

theorem round2_le_int {x : ℚ} {m : ℤ} (h : x ≤ (m : ℚ)) : round2 x ≤ (m : ℚ) := by
  have h1 : 100 * x ≤ ((100 * m : ℤ) : ℚ) := by push_cast; linarith
  have h2 := roundHalfEven_le_int h1
  rw [round2]
  rw [div_le_iff₀ (by norm_num : (0:ℚ) < 100)]
  calc (roundHalfEven (100 * x) : ℚ) ≤ ((100 * m : ℤ) : ℚ) := by exact_mod_cast h2
    _ = (m : ℚ) * 100 := by push_cast; ring

theorem int_le_round2 {m : ℤ} {x : ℚ} (h : (m : ℚ) ≤ x) : (m : ℚ) ≤ round2 x := by
  have h1 : ((100 * m : ℤ) : ℚ) ≤ 100 * x := by push_cast; linarith
  have h2 := int_le_roundHalfEven h1
  rw [round2]
  rw [le_div_iff₀ (by norm_num : (0:ℚ) < 100)]
  calc (m : ℚ) * 100 = ((100 * m : ℤ) : ℚ) := by push_cast; ring
    _ ≤ (roundHalfEven (100 * x) : ℚ) := by exact_mod_cast h2

theorem round2_add_int (x : ℚ) (n : ℤ) : round2 (x + n) = round2 x + n := by
  have : (100 : ℚ) * (x + n) = 100 * x + ((100 * n : ℤ) : ℚ) := by push_cast; ring
  rw [round2, this, roundHalfEven_add_even _ _ (by omega)]
  rw [round2]
  push_cast
  ring

theorem round2_centi (n : ℤ) : round2 ((n : ℚ) / 100) = (n : ℚ) / 100 := by
  have : (100 : ℚ) * ((n : ℚ) / 100) = (n : ℚ) := by field_simp
  rw [round2, this, roundHalfEven_intCast]

/-! ## Claim C3: the spec example for a 25-second video -/

/-- Claim C3, as stated, is false: for duration 25, window_size 20 and
step_size 10 the windowing function does not return `[0,20], [20,25]` —
the cursor advances by the step size 10, not by the window size. -/
theorem claim_C3_counterexample :
    create_sliding_windows 25 20 10 ≠ [(0, 20), (20, 25)] := by
  norm_num [create_sliding_windows, slidingAux, round2, roundHalfEven]

/-- Claim C3 (amended): for duration 25, window_size 20 and step_size 10 the
windowing function returns exactly the two windows `[0,20]` and `[10,25]`,
in that order. -/
theorem claim_C3 : create_sliding_windows 25 20 10 = [(0, 20), (10, 25)] := by
  norm_num [create_sliding_windows, slidingAux, round2, roundHalfEven]

/-! ## Lemmas about the windowing loop -/

theorem slidingAux_head {D : ℚ} {W S : ℤ} {fuel : ℕ} {s : ℚ} {w : Window}
    (h : (slidingAux D W S fuel s).head? = some w) : w.1 = round2 s := by
  match fuel with
  | 0 => simp [slidingAux] at h
  | fuel + 1 =>
    simp only [slidingAux] at h
    repeat' split at h
    all_goals simp_all
    all_goals rw [← h]

theorem slidingAux_chain (D : ℚ) (W S : ℤ) :
    ∀ (fuel : ℕ) (m : ℤ),
      List.Chain' (fun a b => b.1 = a.1 + (S : ℚ))
        (slidingAux D W S fuel (m : ℚ)) := by
  intro fuel
  induction fuel with
  | zero => intro m; simp [slidingAux]
  | succ fuel ih =>
    intro m
    simp only [slidingAux]
    by_cases h1 : (m : ℚ) < D
    · rw [if_pos h1]
      set e : ℚ := if D < (m : ℚ) + (W : ℚ) then D else (m : ℚ) + (W : ℚ) with he
      by_cases h2 : e - (m : ℚ) < 1
      · rw [if_pos h2]
        exact List.chain'_nil
      · rw [if_neg h2]
        by_cases h3 : e = D
        · rw [if_pos h3]
          simp
        · rw [if_neg h3]
          refine List.Chain'.cons' ?_ ?_
          · have hc : (m : ℚ) + (S : ℚ) = ((m + S : ℤ) : ℚ) := by push_cast; ring
            rw [hc]
            exact ih (m + S)
          · intro y hy
            have h4 := slidingAux_head hy
            have hc : (m : ℚ) + (S : ℚ) = ((m + S : ℤ) : ℚ) := by push_cast; ring
            rw [h4, hc, ← hc, round2_add_int]
    · rw [if_neg h1]
      exact List.chain'_nil

theorem slidingAux_bounds (D : ℚ) (W S : ℤ) :
    ∀ (fuel : ℕ) (m : ℤ), ∀ w ∈ slidingAux D W S fuel (m : ℚ),
      1 ≤ w.2 - w.1 ∧ w.2 - w.1 ≤ (W : ℚ) := by
  intro fuel
  induction fuel with
  | zero => intro m w hw; simp [slidingAux] at hw
  | succ fuel ih =>
    intro m w hw
    simp only [slidingAux] at hw
    by_cases h1 : (m : ℚ) < D
    · rw [if_pos h1] at hw
      by_cases h4 : D < (m : ℚ) + (W : ℚ)
      · rw [if_pos h4] at hw
        by_cases h2 : D - (m : ℚ) < 1
        · rw [if_pos h2] at hw
          simp at hw
        · rw [if_neg h2] at hw
          push_neg at h2
          rcases List.mem_cons.mp hw with hw | hw
          · subst hw
            have e1 : ((m + 1 : ℤ) : ℚ) ≤ D := by push_cast; linarith
            have e2 : D ≤ ((m + W : ℤ) : ℚ) := by push_cast; linarith
            have l1 := int_le_round2 e1
            have l2 := round2_le_int e2
            rw [round2_intCast]
            constructor
            · push_cast at l1 ⊢
              linarith
            · push_cast at l2 ⊢
              linarith
          · split at hw
            · simp at hw
            · have hc : (m : ℚ) + (S : ℚ) = ((m + S : ℤ) : ℚ) := by push_cast; ring
              rw [hc] at hw
              exact ih (m + S) w hw
      · rw [if_neg h4] at hw
        by_cases h2 : (m : ℚ) + (W : ℚ) - (m : ℚ) < 1
        · rw [if_pos h2] at hw
          simp at hw
        · rw [if_neg h2] at hw
          push_neg at h2
          rcases List.mem_cons.mp hw with hw | hw
          · subst hw
            have hmw : (m : ℚ) + (W : ℚ) = ((m + W : ℤ) : ℚ) := by push_cast; ring
            rw [round2_intCast, hmw, round2_intCast]
            constructor
            · push_cast
              linarith
            · push_cast
              linarith
          · split at hw
            · simp at hw
            · have hc : (m : ℚ) + (S : ℚ) = ((m + S : ℤ) : ℚ) := by push_cast; ring
              rw [hc] at hw
              exact ih (m + S) w hw
    · rw [if_neg h1] at hw
      simp at hw

theorem slidingAux_cover (D : ℚ) (W S : ℤ) (hS : 1 ≤ S) (hW : S + 1 ≤ W)
    (n : ℤ) (hD : (n : ℚ) = 100 * D) :
    ∀ (fuel : ℕ) (m : ℤ) (x : ℚ), (m : ℚ) ≤ x → x ≤ D → 1 ≤ D - (m : ℚ) →
      D - (m : ℚ) ≤ (fuel : ℚ) →
      ∃ w ∈ slidingAux D W S fuel (m : ℚ), w.1 ≤ x ∧ x ≤ w.2 := by
  have hr2D : round2 D = D := by
    have hDn : D = (n : ℚ) / 100 := by
      rw [hD]
      ring
    rw [hDn, round2_centi]
  have hWq : (1 : ℚ) ≤ (W : ℚ) := by exact_mod_cast by omega
  intro fuel
  induction fuel with
  | zero =>
    intro m x _ _ h3 h4
    norm_num at h4
    linarith
  | succ fuel ih =>
    intro m x hx1 hx2 h3 h4
    have h1 : (m : ℚ) < D := by linarith
    simp only [slidingAux]
    rw [if_pos h1]
    by_cases h5 : D < (m : ℚ) + (W : ℚ)
    · rw [if_pos h5]
      have hg : ¬ (D - (m : ℚ) < 1) := by linarith
      rw [if_neg hg]
      refine ⟨(round2 (m : ℚ), round2 D), List.mem_cons_self _ _, ?_, ?_⟩
      · rw [round2_intCast]
        exact hx1
      · rw [hr2D]
        exact hx2
    · rw [if_neg h5]
      push_neg at h5
      have hg : ¬ ((m : ℚ) + (W : ℚ) - (m : ℚ) < 1) := by linarith
      rw [if_neg hg]
      by_cases h6 : x ≤ (m : ℚ) + (W : ℚ)
      · refine ⟨(round2 (m : ℚ), round2 ((m : ℚ) + (W : ℚ))),
          List.mem_cons_self _ _, ?_, ?_⟩
        · rw [round2_intCast]
          exact hx1
        · show x ≤ round2 ((m : ℚ) + (W : ℚ))
          have hmw : (m : ℚ) + (W : ℚ) = ((m + W : ℤ) : ℚ) := by push_cast; ring
          rw [hmw, round2_intCast, ← hmw]
          exact h6
      · push_neg at h6
        have h7 : ¬ ((m : ℚ) + (W : ℚ) = D) := by
          intro hEq
          rw [hEq] at h6
          linarith
        rw [if_neg h7]
        have hc : (m : ℚ) + (S : ℚ) = ((m + S : ℤ) : ℚ) := by push_cast; ring
        have hSq : (1 : ℚ) ≤ (S : ℚ) := by exact_mod_cast hS
        have hWSq : (S : ℚ) + 1 ≤ (W : ℚ) := by exact_mod_cast hW
        have hlt : (m : ℚ) + (W : ℚ) < D := lt_of_le_of_ne h5 h7
        obtain ⟨w, hw, hw1, hw2⟩ := ih (m + S) x
          (by push_cast; linarith)
          hx2
          (by push_cast; linarith)
          (by push_cast at h4 ⊢; linarith)
        rw [← hc] at hw
        exact ⟨w, List.mem_cons_of_mem _ hw, hw1, hw2⟩

/-! ## Claim C4: general properties of the windowing function -/

/-- Claim C4, as stated, is false: with duration 20, window_size 5 and
step_size 10 (the spec permits `window_size ≤ step_size`), the generated
windows are `[0,5]` and `[10,15]`, whose union does not cover `[0,20]` —
the point 7 lies in no window. -/
theorem claim_C4_counterexample :
    ¬ (∀ x : ℚ, 0 ≤ x → x ≤ 20 →
        ∃ w ∈ create_sliding_windows 20 5 10, w.1 ≤ x ∧ x ≤ w.2) := by
  intro h
  have hlist : create_sliding_windows 20 5 10 = [(0, 5), (10, 15)] := by
    norm_num [create_sliding_windows, slidingAux, round2, roundHalfEven]
  obtain ⟨w, hw, hw1, hw2⟩ := h 7 (by norm_num) (by norm_num)
  rw [hlist] at hw
  rcases List.mem_cons.mp hw with hw | hw
  · subst hw
    norm_num at hw2
  · rcases List.mem_cons.mp hw with hw | hw
    · subst hw
      norm_num at hw1
    · simp at hw

/-- Claim C4 (amended): for every duration `D` and integer sizes `W ≥ 1`,
`S ≥ 1`: consecutive windows' starts differ by exactly `S`, starts are
strictly increasing, every window's stored length lies in `[1, W]`, duration
`≤ 0` yields the empty sequence, and — provided `W ≥ S + 1` (the overlap
regime; for `W ≤ S` coverage can fail), `D ≥ 1` and `D` a whole number of
centiseconds — the windows cover `[0, D]`. -/
theorem claim_C4 (D : ℚ) (W S : ℤ) (_hW : 1 ≤ W) (hS : 1 ≤ S) :
    List.Chain' (fun a b => b.1 = a.1 + (S : ℚ)) (create_sliding_windows D W S)
    ∧ List.Pairwise (fun a b => a.1 < b.1) (create_sliding_windows D W S)
    ∧ (∀ w ∈ create_sliding_windows D W S, 1 ≤ w.2 - w.1 ∧ w.2 - w.1 ≤ (W : ℚ))
    ∧ (D ≤ 0 → create_sliding_windows D W S = [])
    ∧ (S + 1 ≤ W → 1 ≤ D → (∃ n : ℤ, (n : ℚ) = 100 * D) →
        ∀ x : ℚ, 0 ≤ x → x ≤ D →
          ∃ w ∈ create_sliding_windows D W S, w.1 ≤ x ∧ x ≤ w.2) := by
  have h0 : (0 : ℚ) = ((0 : ℤ) : ℚ) := by norm_num
  have hchain : List.Chain' (fun a b => b.1 = a.1 + (S : ℚ))
      (create_sliding_windows D W S) := by
    rw [create_sliding_windows, h0]
    exact slidingAux_chain D W S _ 0
  refine ⟨hchain, ?_, ?_, ?_, ?_⟩
  · haveI : IsTrans Window (fun a b : Window => a.1 < b.1) :=
      ⟨fun _ _ _ => lt_trans⟩
    refine List.chain'_iff_pairwise.mp (hchain.imp ?_)
    intro a b hab
    have hSq : (0 : ℚ) < (S : ℚ) := by exact_mod_cast by omega
    rw [hab]
    linarith
  · intro w hw
    rw [create_sliding_windows, h0] at hw
    exact slidingAux_bounds D W S _ 0 w hw
  · intro hD0
    rw [create_sliding_windows]
    simp only [slidingAux]
    rw [if_neg (by linarith : ¬ ((0 : ℚ) < D))]
  · rintro hWS hD1 ⟨n, hn⟩ x hx0 hxD
    rw [create_sliding_windows, h0]
    have hceil : (0 : ℤ) ≤ ⌈D⌉ := by
      have := Int.le_ceil D
      have h1 : (1 : ℚ) ≤ (⌈D⌉ : ℚ) := by linarith
      exact_mod_cast by exact_mod_cast le_trans zero_le_one h1
    have hfuel : D - ((0 : ℤ) : ℚ) ≤ ((⌈D⌉.toNat + 1 : ℕ) : ℚ) := by
      have h1 : ((⌈D⌉.toNat : ℕ) : ℚ) = ((⌈D⌉ : ℤ) : ℚ) := by
        exact_mod_cast congrArg (fun z : ℤ => (z : ℚ)) (Int.toNat_of_nonneg hceil)
      push_cast
      push_cast at h1
      rw [h1]
      have := Int.le_ceil D
      linarith
    exact slidingAux_cover D W S hS hWS n hn _ 0 x (by norm_num; exact hx0)
      hxD (by norm_num; linarith) hfuel

/-- Witness for claim C4 at the concrete scenario `D = 25`, `W = 20`,
`S = 10`: the point 7 is covered by some generated window. -/
theorem claim_C4_witness :
    ∃ w ∈ create_sliding_windows 25 20 10, w.1 ≤ 7 ∧ 7 ≤ w.2 :=
  (claim_C4 25 20 10 (by norm_num) (by norm_num)).2.2.2.2
    (by norm_num) (by norm_num) ⟨2500, by norm_num⟩ 7 (by norm_num) (by norm_num)

/-! ## Claim C5: transcript alignment -/

theorem chunk_text_parts_go (start_t end_t : ℚ) :
    ∀ (segments : List Segment) (acc : List String),
      segments.foldl
        (fun acc seg =>
          if seg.start < end_t ∧ start_t < seg.«end» then acc ++ [seg.text]
          else acc) acc =
      acc ++ (segments.filter
        (fun seg => decide (seg.start < end_t ∧ start_t < seg.«end»))).map
          Segment.text := by
  intro segments
  induction segments with
  | nil => intro acc; simp
  | cons seg rest ih =>
    intro acc
    by_cases h : seg.start < end_t ∧ start_t < seg.«end»
    · simp only [List.foldl_cons, if_pos h, List.filter_cons,
        decide_eq_true h, List.map_cons, ih]
      simp
    · simp only [List.foldl_cons, if_neg h, List.filter_cons,
        decide_eq_false h, ih]
      simp

/-- Claim C5: a transcript segment's text is selected for a window's audio
section exactly when `segment.start < window.end` and
`segment.end > window.start`; the selected texts are kept in segment order
and the final audio text is their space-joined, trimmed concatenation.  In
particular the segment `[5,10]` is excluded from window `[0,5]` and included
in window `[4,6]`. -/
theorem claim_C5 :
    (∀ (segments : List Segment) (start_t end_t : ℚ),
      chunk_text_parts segments start_t end_t =
        (segments.filter
          (fun seg => decide (seg.start < end_t ∧ start_t < seg.«end»))).map
            Segment.text)
    ∧ (∀ (segments : List Segment) (start_t end_t : ℚ) (t : String),
        t ∈ chunk_text_parts segments start_t end_t ↔
          ∃ seg ∈ segments,
            seg.text = t ∧ seg.start < end_t ∧ start_t < seg.«end»)
    ∧ (∀ (segments : List Segment) (start_t end_t : ℚ),
        audio_text segments start_t end_t =
          (String.intercalate " "
            ((segments.filter
              (fun seg => decide (seg.start < end_t ∧ start_t < seg.«end»))).map
                Segment.text)).trim)
    ∧ chunk_text_parts [⟨5, 10, "x"⟩] 0 5 = []
    ∧ chunk_text_parts [⟨5, 10, "x"⟩] 4 6 = ["x"] := by
  have key : ∀ (segments : List Segment) (start_t end_t : ℚ),
      chunk_text_parts segments start_t end_t =
        (segments.filter
          (fun seg => decide (seg.start < end_t ∧ start_t < seg.«end»))).map
            Segment.text := by
    intro segments start_t end_t
    rw [chunk_text_parts, chunk_text_parts_go]
    simp
  refine ⟨key, ?_, ?_, ?_, ?_⟩
  · intro segments start_t end_t t
    rw [key]
    simp only [List.mem_map, List.mem_filter, decide_eq_true_eq]
    constructor
    · rintro ⟨seg, ⟨hmem, hcond⟩, htext⟩
      exact ⟨seg, hmem, htext, hcond⟩
    · rintro ⟨seg, hmem, htext, hcond⟩
      exact ⟨seg, ⟨hmem, hcond⟩, htext⟩
  · intro segments start_t end_t
    rw [audio_text, key]
  · rw [chunk_text_parts]
    norm_num [List.foldl_cons]
  · rw [chunk_text_parts]
    norm_num [List.foldl_cons]

/-- Witness for claim C5 at a concrete segment list and window. -/
theorem claim_C5_witness :
    "a" ∈ chunk_text_parts [⟨3, 6, "a"⟩, ⟨7, 9, "b"⟩] 0 5 := by
  have h := claim_C5.2.1 [⟨3, 6, "a"⟩, ⟨7, 9, "b"⟩] 0 5 "a"
  rw [h]
  refine ⟨⟨3, 6, "a"⟩, by simp, rfl, by norm_num, by norm_num⟩

/-! ## Claim C10: the frame-difference score -/

theorem mse_self (g : Gray64) : mse g g = 0 := by
  simp [mse]

theorem mse_comm (g1 g2 : Gray64) : mse g1 g2 = mse g2 g1 := by
  unfold mse
  congr 1
  refine Finset.sum_congr rfl fun i _ => Finset.sum_congr rfl fun j _ => ?_
  ring

theorem mse_nonneg (g1 g2 : Gray64) : 0 ≤ mse g1 g2 := by
  unfold mse
  refine div_nonneg ?_ (by norm_num)
  refine Finset.sum_nonneg fun i _ => Finset.sum_nonneg fun j _ => ?_
  positivity

theorem coe_lt_threshold_iff (q : ℚ) :
    scene_change_threshold < (q : WithTop ℚ) ↔ 50 < q := by
  rw [scene_change_threshold]
  exact WithTop.coe_lt_coe

/-- Claim C10: the frame-difference score is symmetric, nonnegative, zero on
identical frames, and positive infinity (`⊤`) when either frame is missing —
hence always above the scene-change threshold in that case. -/
theorem claim_C10 :
    (∀ (Frame : Type) (resizeGray : Frame → Gray64) (a b : Option Frame),
        get_frame_difference resizeGray a b = get_frame_difference resizeGray b a)
    ∧ (∀ (Frame : Type) (resizeGray : Frame → Gray64) (a b : Option Frame),
        0 ≤ get_frame_difference resizeGray a b)
    ∧ (∀ (Frame : Type) (resizeGray : Frame → Gray64) (f : Frame),
        get_frame_difference resizeGray (some f) (some f) = 0)
    ∧ (∀ (Frame : Type) (resizeGray : Frame → Gray64) (b : Option Frame),
        get_frame_difference resizeGray none b = ⊤)
    ∧ (∀ (Frame : Type) (resizeGray : Frame → Gray64) (a : Option Frame),
        get_frame_difference resizeGray a none = ⊤)
    ∧ (∀ (Frame : Type) (resizeGray : Frame → Gray64) (b : Option Frame),
        scene_change_threshold < get_frame_difference resizeGray none b)
    ∧ (∀ (Frame : Type) (resizeGray : Frame → Gray64) (a : Option Frame),
        scene_change_threshold < get_frame_difference resizeGray a none) := by
  have hnone_l : ∀ (Frame : Type) (resizeGray : Frame → Gray64)
      (b : Option Frame), get_frame_difference resizeGray none b = ⊤ := by
    intro Frame resizeGray b
    cases b <;> rfl
  have hnone_r : ∀ (Frame : Type) (resizeGray : Frame → Gray64)
      (a : Option Frame), get_frame_difference resizeGray a none = ⊤ := by
    intro Frame resizeGray a
    cases a <;> rfl
  have hthr : scene_change_threshold < (⊤ : WithTop ℚ) := by
    rw [scene_change_threshold]
    exact WithTop.coe_lt_top (50 : ℚ)
  refine ⟨?_, ?_, ?_, hnone_l, hnone_r, ?_, ?_⟩
  · intro Frame resizeGray a b
    cases a <;> cases b <;> simp [get_frame_difference, mse_comm]
  · intro Frame resizeGray a b
    cases a <;> cases b <;>
      simp [get_frame_difference, le_top]
    exact_mod_cast mse_nonneg _ _
  · intro Frame resizeGray f
    simp [get_frame_difference, mse_self]
  · intro Frame resizeGray b
    rw [hnone_l]
    exact hthr
  · intro Frame resizeGray a
    rw [hnone_r]
    exact hthr

/-! ## Claim C6: the scene-change gate -/

theorem captionCalls_same_frame_zero {Frame : Type} (cap : Frame → String)
    (resizeGray : Frame → Gray64) (f : Frame) :
    ∀ (m : ℕ) (i : ℕ) (st : SceneState Frame),
      st.previous_frame = some f → i ≠ 0 →
      captionCallsFrom cap resizeGray (List.replicate m (some f)) i st = 0 := by
  intro m
  induction m with
  | zero => intro i st _ _; simp [captionCallsFrom]
  | succ m ih =>
    intro i st hprev hi
    rw [List.replicate_succ]
    simp only [captionCallsFrom, visualStep, hprev]
    have hdiff : get_frame_difference resizeGray (some f) (some f) = ((0 : ℚ) : WithTop ℚ) := by
      simp [get_frame_difference, mse_self]
    rw [hdiff]
    have hcond : ¬ (i = 0 ∨ scene_change_threshold < ((0 : ℚ) : WithTop ℚ)) := by
      rintro (h | h)
      · exact hi h
      · rw [coe_lt_threshold_iff] at h
        norm_num at h
    rw [if_neg hcond]
    simpa using ih (i + 1) ⟨some f, st.previous_caption⟩ rfl (by omega)

/-- Claim C6: with an available keyframe, the caption collaborator is invoked
exactly when the window is the first of the video or the frame difference
exceeds the threshold; on invocation the caption and carried caption become
the collaborator's result, otherwise the previous caption is reused
unchanged; in both branches the carried previous frame becomes the new
keyframe.  Consequently, over any run of identical keyframes starting from
the initial state, the collaborator is invoked exactly `min n 1` times. -/
theorem claim_C6 :
    (∀ (Frame : Type) (cap : Frame → String) (resizeGray : Frame → Gray64)
        (i : ℕ) (st : SceneState Frame) (f : Frame),
      ((visualStep cap resizeGray i st (some f)).2.2 = true ↔
        (i = 0 ∨ scene_change_threshold <
          get_frame_difference resizeGray st.previous_frame (some f)))
      ∧ ((visualStep cap resizeGray i st (some f)).2.2 = true →
          (visualStep cap resizeGray i st (some f)).1 = cap f ∧
          (visualStep cap resizeGray i st (some f)).2.1.previous_caption = cap f)
      ∧ ((visualStep cap resizeGray i st (some f)).2.2 = false →
          (visualStep cap resizeGray i st (some f)).1 = st.previous_caption ∧
          (visualStep cap resizeGray i st (some f)).2.1.previous_caption =
            st.previous_caption)
      ∧ (visualStep cap resizeGray i st (some f)).2.1.previous_frame = some f)
    ∧ (∀ (Frame : Type) (cap : Frame → String) (resizeGray : Frame → Gray64)
        (n : ℕ) (f : Frame),
      captionCallsFrom cap resizeGray (List.replicate n (some f)) 0
        (initialSceneState Frame) = min n 1) := by
  constructor
  · intro Frame cap resizeGray i st f
    by_cases hcond : i = 0 ∨ scene_change_threshold <
        get_frame_difference resizeGray st.previous_frame (some f)
    · simp [visualStep, if_pos hcond, hcond]
    · simp [visualStep, if_neg hcond, hcond]
  · intro Frame cap resizeGray n f
    match n with
    | 0 => simp [captionCallsFrom]
    | m + 1 =>
      rw [List.replicate_succ]
      simp only [captionCallsFrom, visualStep, initialSceneState]
      rw [if_pos (Or.inl trivial : True ∨ scene_change_threshold <
        get_frame_difference resizeGray none (some f))]
      simp [captionCalls_same_frame_zero cap resizeGray f m 1 ⟨some f, cap f⟩
        rfl (by omega)]

/-- Witness for claim C6: with three identical keyframes the collaborator is
invoked exactly once. -/
theorem claim_C6_witness :
    captionCallsFrom (fun _ => "caption") (fun _ _ _ => 0)
      (List.replicate 3 (some ())) 0 (initialSceneState Unit) = 1 := by
  have h := claim_C6.2 Unit (fun _ => "caption") (fun _ _ _ => 0) 3 ()
  simpa using h

/-! ## Lemmas about the store -/

theorem store_commit_mem {st : Store} {en : Entry} :
    ∀ x ∈ store_commit st en, x ∈ st ∨ x = en := by
  intro x hx
  rw [store_commit] at hx
  split at hx
  · obtain ⟨old, hold, himg⟩ := List.mem_map.mp hx
    by_cases h : old.id = en.id
    · right
      rw [if_pos h] at himg
      exact himg.symm
    · left
      rw [if_neg h] at himg
      rw [← himg]
      exact hold
  · rcases List.mem_append.mp hx with h | h
    · exact Or.inl h
    · exact Or.inr (List.mem_singleton.mp h)

theorem store_commit_self_mem (st : Store) (en : Entry) :
    en ∈ store_commit st en := by
  rw [store_commit]
  split
  · rename_i hany
    obtain ⟨old, hold, hmatch⟩ := List.any_eq_true.mp hany
    refine List.mem_map.mpr ⟨old, hold, ?_⟩
    rw [if_pos (of_decide_eq_true hmatch)]
  · exact List.mem_append.mpr (Or.inr (List.mem_singleton.mpr rfl))

theorem store_commit_id_eq {st : Store} {en : Entry} :
    ∀ x ∈ store_commit st en, x.id = en.id → x = en := by
  intro x hx hid
  rw [store_commit] at hx
  split at hx
  · obtain ⟨old, hold, himg⟩ := List.mem_map.mp hx
    by_cases h : old.id = en.id
    · rw [if_pos h] at himg
      exact himg.symm
    · rw [if_neg h] at himg
      rw [← himg] at hid
      exact absurd hid h
  · rename_i hany
    rcases List.mem_append.mp hx with h | h
    · have hno := List.any_eq_false.mp (Bool.not_eq_true _ ▸ hany) x h
      simp at hno
      exact absurd hid hno
    · exact List.mem_singleton.mp h

theorem store_commit_countP {st : Store} {en : Entry}
    (h : st.countP (fun x => decide (x.id = en.id)) ≤ 1) :
    (store_commit st en).countP (fun x => decide (x.id = en.id)) = 1 := by
  rw [store_commit]
  split
  · rename_i hany
    obtain ⟨w, hw, hwm⟩ := List.any_eq_true.mp hany
    have hpos : 0 < st.countP (fun x => decide (x.id = en.id)) :=
      List.countP_pos_iff.mpr ⟨w, hw, hwm⟩
    have hmap : (st.map (fun old => if old.id = en.id then en else old)).countP
        (fun x => decide (x.id = en.id)) =
        st.countP (fun x => decide (x.id = en.id)) := by
      rw [List.countP_map]
      refine List.countP_congr fun x _ => ?_
      by_cases hx : x.id = en.id
      · simp [Function.comp, hx]
      · simp [Function.comp, hx]
    rw [hmap]
    omega
  · rename_i hany
    have hz : st.countP (fun x => decide (x.id = en.id)) = 0 := by
      refine List.countP_eq_zero.mpr fun x hx => ?_
      have hno := List.any_eq_false.mp (Bool.not_eq_true _ ▸ hany) x hx
      exact hno
    rw [List.countP_append, hz]
    simp

/-! ## Claim C7: bounded retry with backoff -/

/-- Claim C7: the commit operation makes at most 3 attempts, succeeds exactly
when one of the first 3 attempts succeeds, stops at the first success, stores
the record when the store fails twice then succeeds (sleeping the fixed 2
seconds after each non-final failure), and when all attempts fail it returns
normally with the store unchanged — so the batch loop reaches every
subsequent record, each record's stored/failed result depending only on its
own write outcomes. -/
theorem claim_C7 :
    (∀ (outcome : ℕ → Bool) (st : Store) (video_id : String)
        (start_time end_time : ℚ) (text : String) (metadata : Metadata),
      ((add_chunk_to_db outcome st video_id start_time end_time text
          metadata).2.2.1 ≤ 3)
      ∧ ((add_chunk_to_db outcome st video_id start_time end_time text
            metadata).2.1 = (outcome 0 || outcome 1 || outcome 2))
      ∧ (outcome 0 = true →
          (add_chunk_to_db outcome st video_id start_time end_time text
            metadata).2.2.1 = 1)
      ∧ (outcome 0 = false → outcome 1 = false → outcome 2 = true →
          (add_chunk_to_db outcome st video_id start_time end_time text
            metadata).2.1 = true
          ∧ (add_chunk_to_db outcome st video_id start_time end_time text
              metadata).2.2.1 = 3
          ∧ (add_chunk_to_db outcome st video_id start_time end_time text
              metadata).2.2.2 = 4
          ∧ ∃ x ∈ (add_chunk_to_db outcome st video_id start_time end_time
              text metadata).1,
              x.id = chunk_id video_id start_time end_time ∧ x.doc = text)
      ∧ (outcome 0 = false → outcome 1 = false → outcome 2 = false →
          (add_chunk_to_db outcome st video_id start_time end_time text
            metadata).2.1 = false
          ∧ (add_chunk_to_db outcome st video_id start_time end_time text
              metadata).1 = st
          ∧ (add_chunk_to_db outcome st video_id start_time end_time text
              metadata).2.2.1 = 3))
    ∧ (∀ (outcome2 : ℕ → ℕ → Bool) (st : Store) (i : ℕ) (ens : List Entry),
        (commitAllGo outcome2 st i ens).2 =
          (List.range' i ens.length).map
            (fun k => outcome2 k 0 || outcome2 k 1 || outcome2 k 2)) := by
  constructor
  · intro outcome st video_id start_time end_time text metadata
    refine ⟨?_, ?_, ?_, ?_, ?_⟩
    · rcases h0 : outcome 0 <;> rcases h1 : outcome 1 <;>
        rcases h2 : outcome 2 <;>
        simp [add_chunk_to_db, retryGo, h0, h1, h2]
    · rcases h0 : outcome 0 <;> rcases h1 : outcome 1 <;>
        rcases h2 : outcome 2 <;>
        simp [add_chunk_to_db, retryGo, h0, h1, h2]
    · intro h0
      simp [add_chunk_to_db, retryGo, h0]
    · intro h0 h1 h2
      refine ⟨?_, ?_, ?_, ?_⟩ <;>
        simp [add_chunk_to_db, retryGo, h0, h1, h2]
      exact ⟨⟨chunk_id video_id start_time end_time, text, _⟩,
        store_commit_self_mem _ _, rfl, rfl⟩
    · intro h0 h1 h2
      refine ⟨?_, ?_, ?_⟩ <;>
        simp [add_chunk_to_db, retryGo, h0, h1, h2]
  · intro outcome2 st i ens
    induction ens generalizing st i with
    | nil => simp [commitAllGo]
    | cons en rest ih =>
      have hsucc : (retryGo (outcome2 i) st en 3 0 3).2.1 =
          (outcome2 i 0 || outcome2 i 1 || outcome2 i 2) := by
        rcases h0 : outcome2 i 0 <;> rcases h1 : outcome2 i 1 <;>
          rcases h2 : outcome2 i 2 <;>
          simp [retryGo, h0, h1, h2]
      simp [commitAllGo, List.range'_succ, hsucc, ih]

/-- Witness for claim C7: a store that raises on the first two attempts and
succeeds on the third results in the record being stored, in exactly 3
attempts. -/
theorem claim_C7_witness :
    (add_chunk_to_db (fun a => decide (a = 2)) [] "vid" 0 20 "doc"
        []).2.1 = true
    ∧ (add_chunk_to_db (fun a => decide (a = 2)) [] "vid" 0 20 "doc"
        []).2.2.1 = 3 := by
  have h := (claim_C7.1 (fun a => decide (a = 2)) [] "vid" 0 20 "doc"
    []).2.2.2.1 (by norm_num) (by norm_num) (by norm_num)
  exact ⟨h.1, h.2.1⟩

/-! ## Claim C1: idempotent commits -/

/-- Claim C1: committing two records with the same `(video_id, start, end)`
identity into a store that holds at most one record under that identity
leaves exactly one stored record under the identity, and it carries the
content of the second commit — the second commit replaces rather than
duplicates. -/
theorem claim_C1 (st : Store) (video_id : String) (start_time end_time : ℚ)
    (t1 t2 : String) (m1 m2 : Metadata)
    (hwf : st.countP
      (fun x => decide (x.id = chunk_id video_id start_time end_time)) ≤ 1) :
    ((add_chunk_to_db (fun _ => true)
        (add_chunk_to_db (fun _ => true) st video_id start_time end_time t1
          m1).1
        video_id start_time end_time t2 m2).1.countP
      (fun x => decide (x.id = chunk_id video_id start_time end_time)) = 1)
    ∧ (∀ x ∈ (add_chunk_to_db (fun _ => true)
          (add_chunk_to_db (fun _ => true) st video_id start_time end_time t1
            m1).1
          video_id start_time end_time t2 m2).1,
        x.id = chunk_id video_id start_time end_time → x.doc = t2) := by
  have hcommit : ∀ (st' : Store) (t : String) (m : Metadata),
      (add_chunk_to_db (fun _ => true) st' video_id start_time end_time t
        m).1 =
      store_commit st' ⟨chunk_id video_id start_time end_time, t,
        setKey (setKey (setKey m "video_id" (MVal.s video_id)) "start_time"
          (MVal.q start_time)) "end_time" (MVal.q end_time)⟩ := by
    intro st' t m
    simp [add_chunk_to_db, retryGo]
  rw [hcommit, hcommit]
  have h1 := @store_commit_countP st
    ⟨chunk_id video_id start_time end_time, t1,
      setKey (setKey (setKey m1 "video_id" (MVal.s video_id)) "start_time"
        (MVal.q start_time)) "end_time" (MVal.q end_time)⟩ hwf
  constructor
  · exact @store_commit_countP _
      ⟨chunk_id video_id start_time end_time, t2,
        setKey (setKey (setKey m2 "video_id" (MVal.s video_id)) "start_time"
          (MVal.q start_time)) "end_time" (MVal.q end_time)⟩
      (le_of_eq h1)
  · intro x hx hid
    have := store_commit_id_eq x hx hid
    rw [this]

/-- Witness for claim C1 at a concrete pair of commits into the empty store. -/
theorem claim_C1_witness :
    ((add_chunk_to_db (fun _ => true)
        (add_chunk_to_db (fun _ => true) [] "vid" 0 20 "first" []).1
        "vid" 0 20 "second" []).1.countP
      (fun x => decide (x.id = chunk_id "vid" 0 20)) = 1)
    ∧ (∀ x ∈ (add_chunk_to_db (fun _ => true)
          (add_chunk_to_db (fun _ => true) [] "vid" 0 20 "first" []).1
          "vid" 0 20 "second" []).1,
        x.id = chunk_id "vid" 0 20 → x.doc = "second") :=
  claim_C1 [] "vid" 0 20 "first" "second" [] [] (by simp)

/-! ## Claim C2: identity determinism across runs -/

theorem ingestGo_video_ids (u : ℕ → String) :
    ∀ (files : List (String × Option ℚ)) (k : ℕ),
      (ingestGo u files k).map VideoMeta.video_id =
        (List.range' k (files.countP (fun p => p.2.isSome))).map u := by
  intro files
  induction files with
  | nil => intro k; simp [ingestGo]
  | cons p rest ih =>
    intro k
    obtain ⟨fn, dur⟩ := p
    cases dur with
    | none => simpa [ingestGo] using ih k
    | some d =>
      simp only [ingestGo, List.map_cons, List.countP_cons, Option.isSome_some]
      rw [ih (k + 1)]
      simp [List.range'_succ]

theorem ingestGo_files_part (u : ℕ → String) :
    ∀ (files : List (String × Option ℚ)) (k : ℕ),
      (ingestGo u files k).map (fun v => (v.filename, v.duration_seconds)) =
        files.filterMap (fun p => p.2.map (fun d => (p.1, round2 d))) := by
  intro files
  induction files with
  | nil => intro k; simp [ingestGo]
  | cons p rest ih =>
    intro k
    obtain ⟨fn, dur⟩ := p
    cases dur with
    | none => simpa [ingestGo] using ih k
    | some d =>
      simp only [ingestGo, List.map_cons, List.filterMap_cons, Option.map_some]
      rw [ih (k + 1)]
      simp

theorem ingestGo_eq_of_agree (u u2 : ℕ → String) :
    ∀ (files : List (String × Option ℚ)) (k : ℕ),
      (∀ j, k ≤ j → j < k + files.countP (fun p => p.2.isSome) → u j = u2 j) →
      ingestGo u files k = ingestGo u2 files k := by
  intro files
  induction files with
  | nil => intro k _; simp [ingestGo]
  | cons p rest ih =>
    intro k hagree
    obtain ⟨fn, dur⟩ := p
    cases dur with
    | none =>
      simp only [ingestGo]
      refine ih k fun j hj1 hj2 => hagree j hj1 ?_
      simp only [List.countP_cons, Option.isSome_none] at hj2 ⊢
      simpa using hj2
    | some d =>
      have hcnt : ((fn, some d) :: rest).countP (fun p => p.2.isSome) =
          rest.countP (fun p => p.2.isSome) + 1 := by
        simp [List.countP_cons]
      have hk : u k = u2 k := by
        refine hagree k le_rfl ?_
        rw [hcnt]
        omega
      simp only [ingestGo, hk]
      rw [ih (k + 1) fun j hj1 hj2 => hagree j (by omega) (by rw [hcnt]; omega)]

/-- Claim C2, as stated, is false: the video identifier is drawn fresh from
the uuid supply on every ingestion run, so two runs over the same file that
draw different tokens assign different video_ids, and hence different record
identities to the same window (here window `[0,20]`). -/
theorem claim_C2_counterexample :
    (ingest_videos (fun _ => "aaaaaaaa") [("news.mp4", some 25)]).map
        VideoMeta.video_id = ["aaaaaaaa"]
    ∧ (ingest_videos (fun _ => "bbbbbbbb") [("news.mp4", some 25)]).map
        VideoMeta.video_id = ["bbbbbbbb"]
    ∧ chunk_id "aaaaaaaa" 0 20 ≠ chunk_id "bbbbbbbb" 0 20 := by
  refine ⟨?_, ?_, ?_⟩
  · simp [ingest_videos, ingestGo]
  · simp [ingest_videos, ingestGo]
  · decide

/-- Claim C2 (amended): the record identity is a deterministic function of
the drawn tokens and the file listing — the k-th ingested video's id is the
k-th drawn token, everything else in the ingested metadata is determined by
the files alone, and two ingestion runs agree completely whenever their uuid
draws agree on the used indices.  Re-running ingestion produces the same
identity only under the same drawn video_id; a fresh draw yields a fresh
identity. -/
theorem claim_C2 (u : ℕ → String) (files : List (String × Option ℚ)) :
    ((ingest_videos u files).map VideoMeta.video_id =
      (List.range' 0 (files.countP (fun p => p.2.isSome))).map u)
    ∧ ((ingest_videos u files).map (fun v => (v.filename, v.duration_seconds)) =
        files.filterMap (fun p => p.2.map (fun d => (p.1, round2 d))))
    ∧ (∀ u2 : ℕ → String,
        (∀ j, j < files.countP (fun p => p.2.isSome) → u j = u2 j) →
        ingest_videos u files = ingest_videos u2 files) := by
  refine ⟨ingestGo_video_ids u files 0, ingestGo_files_part u files 0, ?_⟩
  intro u2 hagree
  exact ingestGo_eq_of_agree u u2 files 0 fun j _ hj2 => hagree j (by omega)

/-- Witness for claim C2 at a concrete run: with the constant supply the
single ingested video receives the drawn token as its id. -/
theorem claim_C2_witness :
    (ingest_videos (fun _ => "cafebabe") [("news.mp4", some 25)]).map
      VideoMeta.video_id =
    (List.range' 0
      ([(("news.mp4" : String), some (25 : ℚ))].countP
        (fun p => p.2.isSome))).map (fun _ => "cafebabe") :=
  (claim_C2 (fun _ => "cafebabe") [("news.mp4", some 25)]).1

/-! ## Claim C8: answer synthesis -/

/-- Claim C8, as stated, is false on one edge: when the collaborator call
succeeds but returns empty content, the function returns the fixed string
"Error generating response." — neither the collaborator's answer (the empty
string) nor the degraded string reserved for a failed call. -/
theorem claim_C8_counterexample :
    (generate_answer (fun _ _ => Except.ok (some "")) "q" ["c"]).1 =
      "Error generating response."
    ∧ (generate_answer (fun _ _ => Except.ok (some "")) "q" ["c"]).1 ≠ ""
    ∧ (generate_answer (fun _ _ => Except.ok (some "")) "q" ["c"]).1 ≠
        "An error occurred while generating the answer." := by
  refine ⟨rfl, ?_, ?_⟩ <;> decide

/-- Claim C8 (amended): answer synthesis never raises — with no retrieved
records it returns the fixed insufficient-information string with zero
collaborator calls; otherwise it makes exactly one collaborator call and
returns the collaborator's answer when the call succeeds with non-empty
content, the fixed string "Error generating response." when the content is
empty or missing, and the fixed degraded string "An error occurred while
generating the answer." when the call raises. -/
theorem claim_C8 (llm : String → String → Except Unit (Option String))
    (user_query : String) (relevant_chunks : List String) :
    (relevant_chunks = [] →
      generate_answer llm user_query relevant_chunks =
        ("I could not find enough information in the videos to answer that.",
          false))
    ∧ (relevant_chunks ≠ [] →
        (generate_answer llm user_query relevant_chunks).2 = true
        ∧ (∀ err,
            llm system_prompt (user_message user_query relevant_chunks) =
              Except.error err →
            (generate_answer llm user_query relevant_chunks).1 =
              "An error occurred while generating the answer.")
        ∧ (∀ a,
            llm system_prompt (user_message user_query relevant_chunks) =
              Except.ok (some a) → a ≠ "" →
            (generate_answer llm user_query relevant_chunks).1 = a)
        ∧ (llm system_prompt (user_message user_query relevant_chunks) =
              Except.ok none →
            (generate_answer llm user_query relevant_chunks).1 =
              "Error generating response.")
        ∧ (llm system_prompt (user_message user_query relevant_chunks) =
              Except.ok (some "") →
            (generate_answer llm user_query relevant_chunks).1 =
              "Error generating response.")) := by
  constructor
  · intro h
    subst h
    rfl
  · intro hne
    have hempty : relevant_chunks.isEmpty = false := by
      cases relevant_chunks with
      | nil => exact absurd rfl hne
      | cons a l => rfl
    refine ⟨?_, ?_, ?_, ?_, ?_⟩
    · rcases hr : llm system_prompt (user_message user_query relevant_chunks)
        with err | answer
      · simp [generate_answer, hempty, hr]
      · cases answer <;> simp [generate_answer, hempty, hr]
    · intro err hr
      simp [generate_answer, hempty, hr]
    · intro a hr ha
      have haE : a.isEmpty = false := by
        cases hE : a.isEmpty
        · rfl
        · exact absurd ((String.isEmpty_iff a).mp hE) ha
      simp [generate_answer, hempty, hr, haE]
    · intro hr
      simp [generate_answer, hempty, hr]
    · intro hr
      simp [generate_answer, hempty, hr]
      rfl

/-- Witness for claim C8: a successful collaborator call's non-empty answer
is returned verbatim, and the empty retrieval case returns the fixed string
without a call. -/
theorem claim_C8_witness :
    (generate_answer (fun _ _ => Except.ok (some "the answer")) "q" ["c"]).1 =
      "the answer"
    ∧ generate_answer (fun _ _ => Except.ok (some "the answer")) "q" [] =
      ("I could not find enough information in the videos to answer that.",
        false) := by
  constructor
  · exact (claim_C8 (fun _ _ => Except.ok (some "the answer")) "q"
      ["c"]).2 (by simp) |>.2.2.1 "the answer" rfl (by decide)
  · exact (claim_C8 (fun _ _ => Except.ok (some "the answer")) "q" []).1 rfl

/-! ## Claim C9: the fused text body always has its three labeled sections -/

theorem retryGo_store (o : ℕ → Bool) (st : Store) (en : Entry) (mr : ℕ) :
    ∀ (r a : ℕ),
      (retryGo o st en mr a r).1 = st ∨
      (retryGo o st en mr a r).1 = store_commit st en := by
  intro r
  induction r with
  | zero => intro a; exact Or.inl rfl
  | succ r ih =>
    intro a
    by_cases h : o a = true
    · right
      simp [retryGo, h]
    · have h' : o a = false := by
        cases hoa : o a
        · rfl
        · exact absurd hoa h
      simpa [retryGo, h'] using ih (a + 1)

/-- Claim C9: every record committed by the per-window fusion step carries a
document whose text is the three labeled sections — visual scene, on-screen
text, audio transcript — in that fixed order; a signal with no content
leaves its section present but empty, as in the all-empty document. -/
theorem claim_C9 :
    (∀ (Frame : Type) (frameAt : ℚ → Option Frame) (cap : Frame → String)
        (resizeGray : Frame → Gray64) (ocr : Frame → String)
        (ner : String → List String × List String × List String)
        (segments : List Segment) (video_id filename : String) (i : ℕ)
        (st : SceneState Frame) (chunk : Window) (store : Store)
        (outcome : ℕ → Bool),
      ∀ en ∈ (processChunk frameAt cap resizeGray ocr ner segments video_id
          filename i st chunk store outcome).1,
        en ∈ store ∨
        ∃ b c d, en.doc =
          "[Visual Scene]: " ++ b ++ " [On-Screen Text]: " ++ c ++
          " [Audio Transcript]: " ++ d)
    ∧ final_text "" "" "" =
        "[Visual Scene]:  [On-Screen Text]:  [Audio Transcript]: " := by
  constructor
  · intro Frame frameAt cap resizeGray ocr ner segments video_id filename i st
      chunk store outcome en hen
    have hst := retryGo_store outcome store
      ⟨chunk_id video_id chunk.1 chunk.2,
        (fuseChunk frameAt cap resizeGray ocr ner segments filename i st
          chunk).1.1,
        setKey (setKey (setKey
          (fuseChunk frameAt cap resizeGray ocr ner segments filename i st
            chunk).1.2
          "video_id" (MVal.s video_id)) "start_time" (MVal.q chunk.1))
          "end_time" (MVal.q chunk.2)⟩ 3 3 0
    rcases hst with hst | hst
    · rw [processChunk] at hen
      simp only [add_chunk_to_db] at hen
      rw [hst] at hen
      exact Or.inl hen
    · rw [processChunk] at hen
      simp only [add_chunk_to_db] at hen
      rw [hst] at hen
      rcases store_commit_mem en hen with h | h
      · exact Or.inl h
      · right
        subst h
        exact ⟨(visualStep cap resizeGray i st
            (frameAt ((chunk.1 + chunk.2) / 2))).1,
          (match frameAt ((chunk.1 + chunk.2) / 2) with
            | some f => ocr f
            | none => ""),
          audio_text segments chunk.1 chunk.2, rfl⟩
  · rfl

/-- Witness for claim C9: the all-empty-signals document still carries the
three labeled sections. -/
theorem claim_C9_witness :
    final_text "" "" "" =
      "[Visual Scene]:  [On-Screen Text]:  [Audio Transcript]: " :=
  claim_C9.2

end NewsVideo
